import Mathlib

/-!
# GoLangTutorial: bill formatter CLI and greeter/bills HTTP service

A shallow embedding of `src/samples/bill.go`, `src/samples/main.go` and `src/main.go`.

* Go `string` values are Lean `String`s (sequences of Unicode code points).
* Go `float64` values are modelled exactly (`Float64`): a finite value is a sign and a
  magnitude counted in units of `2^-1074`, the smallest positive subnormal, so that every
  finite binary64 number is an integer number of units; sums and constants are rounded to
  nearest, ties to even, as IEEE 754 prescribes.
* A Go `map[string]float64` is the list of its entries; the order in which one `range`
  loop visits the entries is an explicit argument of `bill.format`, a permutation of them.
* `fmt`, `strings`, `bufio`, `encoding/json` and `net/http` calls are modelled by what the
  Go standard library documents for them.
-/

set_option autoImplicit false
set_option exponentiation.threshold 4096

namespace GoLangTutorial

/-! ## float64 -/

/-- Go `float64`. `fin neg mag` is the finite number `(-1)^neg * mag * 2^-1074`. -/
inductive Float64 where
  | fin (neg : Bool) (mag : Nat)
  | inf (neg : Bool)
  | nan
  deriving DecidableEq, Repr

/-- Binary logarithm by repeated halving, `fuel` bounding the number of halvings. -/
def log2Aux : Nat → Nat → Nat
  | 0, _ => 0
  | fuel + 1, n => if n < 2 then 0 else log2Aux fuel (n / 2) + 1

/-- The position of the highest set bit of `n` (`0` for `n = 0`). -/
def log2 (n : Nat) : Nat := log2Aux n n

namespace Float64

/-- Quotient `n / d` rounded to the nearest natural number, ties to even. -/
def divRoundEven (n d : Nat) : Nat :=
  let q := n / d
  let r := n % d
  if 2 * r < d then q
  else if d < 2 * r then q + 1
  else if q % 2 = 0 then q else q + 1

/-- The float64 nearest to `n / d` units of `2^-1074` (53 significant bits, ties to even,
overflow to infinity at `2^1024`). -/
def roundTo (neg : Bool) (n d : Nat) : Float64 :=
  let e := log2 (n / d) - 52
  let m := divRoundEven n (d * 2 ^ e)
  if m * 2 ^ e < 2 ^ 2098 then fin neg (m * 2 ^ e) else inf neg

/-- A Go decimal constant `num / den` converted to `float64`. -/
def ofDecimal (num den : Nat) : Float64 :=
  roundTo false (num * 2 ^ 1074) den

/-- The signed number of units of a finite value. -/
def units (neg : Bool) (mag : Nat) : Int :=
  if neg then -(mag : Int) else (mag : Int)

/-- Go `x + y` on `float64` (IEEE 754 binary64 addition, round to nearest even). -/
def add : Float64 → Float64 → Float64
  | nan, _ => nan
  | _, nan => nan
  | inf s, inf t => if s = t then inf s else nan
  | inf s, fin _ _ => inf s
  | fin _ _, inf t => inf t
  | fin s m, fin t n =>
    let z := units s m + units t n
    if z = 0 then fin (s && t) 0
    else roundTo (decide (z < 0)) z.natAbs 1

/-- A value the type `float64` really holds: a finite magnitude is below `2^1024` and has
at most 53 significant bits. -/
def WellFormed : Float64 → Prop
  | fin _ mag => mag < 2 ^ 2098 ∧ mag % 2 ^ (log2 mag - 52) = 0
  | _ => True

instance (x : Float64) : Decidable (WellFormed x) := by
  cases x <;> unfold WellFormed <;> infer_instance

end Float64

/-! ## Decimal digits -/

/-- The decimal digit character of `n % 10`. -/
def digitChar (n : Nat) : Char :=
  match n % 10 with
  | 0 => '0' | 1 => '1' | 2 => '2' | 3 => '3' | 4 => '4'
  | 5 => '5' | 6 => '6' | 7 => '7' | 8 => '8' | _ => '9'

/-- Decimal digits of `n`, most significant first, prepended to `acc`. -/
def natDigitsAux : Nat → Nat → List Char → List Char
  | 0, n, acc => digitChar n :: acc
  | fuel + 1, n, acc =>
    if n < 10 then digitChar n :: acc
    else natDigitsAux fuel (n / 10) (digitChar n :: acc)

/-- Decimal digits of `n` (`"0"` for zero). -/
def natDigits (n : Nat) : List Char :=
  natDigitsAux n n []

/-! ## strconv.FormatFloat -/

/-- A decimal number `coef * 10^exp10` (the digits of `coef` are the significant digits). -/
structure Decimal where
  coef : Nat
  exp10 : Int
  deriving DecidableEq, Repr

namespace Decimal

/-- Number of quarter units of `2^-1074` in `10^k`, as a fraction `(p, q)`. -/
def scale (k : Int) : Nat × Nat :=
  if 0 ≤ k then (4 * 2 ^ 1074 * 10 ^ k.toNat, 1) else (4 * 2 ^ 1074, 10 ^ (-k).toNat)

/-- Whether `c * 10^k` lies in the rounding interval `[lo4, hi4]` (quarter units), the end
points counting only when `incl`. -/
def inside (lo4 hi4 : Nat) (incl : Bool) (k : Int) (c : Nat) : Bool :=
  let (p, q) := scale k
  if incl then decide (lo4 * q ≤ c * p) && decide (c * p ≤ hi4 * q)
  else decide (lo4 * q < c * p) && decide (c * p < hi4 * q)

/-- The multiple of `10^k` inside the rounding interval that is closest to `v4` quarter
units (ties to the even coefficient), if there is one. -/
def candidate (v4 lo4 hi4 : Nat) (incl : Bool) (k : Int) : Option Nat :=
  let (p, q) := scale k
  let c1 := v4 * q / p
  let c2 := c1 + 1
  let ok1 := inside lo4 hi4 incl k c1
  let ok2 := inside lo4 hi4 incl k c2
  if ok1 && ok2 then
    let below := v4 * q - c1 * p
    let above := c2 * p - v4 * q
    if below < above then some c1
    else if above < below then some c2
    else if c1 % 2 = 0 then some c1 else some c2
  else if ok1 then some c1
  else if ok2 then some c2
  else none

/-- Search downwards from exponent `k` for the first (largest) power of ten that has a
multiple inside the rounding interval. -/
def search : Nat → Int → Nat → Nat → Nat → Bool → Decimal
  | 0, k, v4, _, _, _ =>
    let (p, q) := scale k
    ⟨Float64.divRoundEven (v4 * q) p, k⟩
  | fuel + 1, k, v4, lo4, hi4, incl =>
    match candidate v4 lo4 hi4 incl k with
    | some c => ⟨c, k⟩
    | none => search fuel (k - 1) v4 lo4 hi4 incl

/-- The shortest decimal that converts back to the finite non-zero float `mag` units:
`strconv.FormatFloat(f, fmt, -1, 64)` digit generation. -/
def shortest (mag : Nat) : Decimal :=
  let e := log2 mag - 52
  let ulp4 := 4 * 2 ^ e
  let border := decide (mag = 2 ^ log2 mag) && decide (53 ≤ log2 mag)
  let v4 := 4 * mag
  let lo4 := if border then v4 - ulp4 / 4 else v4 - ulp4 / 2
  let hi4 := v4 + ulp4 / 2
  let incl := decide ((mag / 2 ^ e) % 2 = 0)
  let b : Int := (log2 hi4 : Int) + 1 - 1076
  search 40 (b * 30103 / 100000 + 2) v4 lo4 hi4 incl

end Decimal

/-- Digits and decimal point position, as `strconv` keeps them: the value is
`0.d1 d2 ... dn * 10^dp`. -/
structure DecimalSlice where
  d : List Char
  dp : Int
  deriving DecidableEq, Repr

/-- Shortest digits of a finite magnitude (no digits for zero). -/
def shortestSlice (mag : Nat) : DecimalSlice :=
  if mag = 0 then ⟨[], 0⟩
  else
    let s := Decimal.shortest mag
    let ds := natDigits s.coef
    ⟨ds, (ds.length : Int) + s.exp10⟩

/-- The digit at index `j` of a digit list, `'0'` outside it. -/
def digitAt (d : List Char) (j : Int) : Char :=
  if 0 ≤ j then d.getD j.toNat '0' else '0'

/-- The layout `%e` of `strconv` (function `fmtE`): `d.ddde±dd` with `prec` digits after
the point. -/
def fmtE (neg : Bool) (s : DecimalSlice) (prec : Nat) : List Char :=
  let sign := if neg then ['-'] else []
  let first := [digitAt s.d 0]
  let frac := if 0 < prec then '.' :: (List.range prec).map (fun (i : Nat) => digitAt s.d ((i : Int) + 1)) else []
  let exp : Int := if s.d = [] then 0 else s.dp - 1
  let esign := if exp < 0 then '-' else '+'
  let e := exp.natAbs
  let edigits := if e < 10 then ['0', digitChar e] else natDigits e
  sign ++ first ++ frac ++ ['e', esign] ++ edigits

/-- The layout `%f` of `strconv` (function `fmtF`): integer part, then `prec` digits after
the point. -/
def fmtF (neg : Bool) (s : DecimalSlice) (prec : Nat) : List Char :=
  let sign := if neg then ['-'] else []
  let int := if 0 < s.dp then (List.range s.dp.toNat).map (fun (i : Nat) => digitAt s.d (i : Int)) else ['0']
  let frac := if 0 < prec then '.' :: (List.range prec).map (fun (i : Nat) => digitAt s.d (s.dp + (i : Int))) else []
  sign ++ int ++ frac

/-- The text `strconv.FormatFloat(x, 'g', -1, 64)`: shortest digits, `%e` layout when the
decimal exponent is below `-4` or at least `6` (`eprec = 6` for the shortest precision). -/
def formatG : Float64 → List Char
  | .nan => "NaN".data
  | .inf false => "+Inf".data
  | .inf true => "-Inf".data
  | .fin neg mag =>
    let s := shortestSlice mag
    let exp := s.dp - 1
    if exp < -4 ∨ 6 ≤ exp then fmtE neg s (s.d.length - 1)
    else fmtF neg s ((s.d.length : Int) - s.dp).toNat

/-- The text `strconv.FormatFloat(x, 'f', -1, 64)`: shortest digits in `%f` layout. -/
def formatFShortest : Float64 → List Char
  | .nan => "NaN".data
  | .inf false => "+Inf".data
  | .inf true => "-Inf".data
  | .fin neg mag =>
    let s := shortestSlice mag
    fmtF neg s ((s.d.length : Int) - s.dp).toNat

/-- The text `strconv.FormatFloat(x, 'e', -1, 64)`: shortest digits in `%e` layout. -/
def formatEShortest : Float64 → List Char
  | .nan => "NaN".data
  | .inf false => "+Inf".data
  | .inf true => "-Inf".data
  | .fin neg mag =>
    let s := shortestSlice mag
    fmtE neg s (s.d.length - 1)

/-- The text `strconv.FormatFloat(x, 'f', prec, 64)`: the exact value rounded to `prec`
decimals, ties to even. -/
def formatFixed (prec : Nat) : Float64 → List Char
  | .nan => "NaN".data
  | .inf false => "+Inf".data
  | .inf true => "-Inf".data
  | .fin neg mag =>
    let q := Float64.divRoundEven (mag * 10 ^ prec) (2 ^ 1074)
    let frac :=
      if 0 < prec then '.' :: (List.range prec).map (fun (i : Nat) => digitChar (q / 10 ^ (prec - 1 - i)))
      else []
    (if neg then ['-'] else []) ++ natDigits (q / 10 ^ prec) ++ frac

/-! ## fmt verbs -/

/-- Padding of `fmt`: spaces up to width `wid` (counted in code points), on the right
with the `-` flag and on the left without it. -/
def pad (minus : Bool) (wid : Nat) (s : List Char) : List Char :=
  if minus then s ++ List.replicate (wid - s.length) ' '
  else List.replicate (wid - s.length) ' ' ++ s

/-- The verb `%-15v` or `%5v` applied to a string operand. -/
def fmtString (minus : Bool) (wid : Nat) (s : String) : String :=
  ⟨pad minus wid s.data⟩

/-- The verb `%5v` applied to a `float64` operand: `%g` with the shortest precision. -/
def fmtFloatV (wid : Nat) (x : Float64) : String :=
  ⟨pad false wid (formatG x)⟩

/-- The verb `%3.2f` applied to a `float64` operand. -/
def fmtFloatF (wid prec : Nat) (x : Float64) : String :=
  ⟨pad false wid (formatFixed prec x)⟩

namespace samples

/-! ## samples/bill.go -/

/-- The struct `bill`: `items` lists the entries of the Go map (keys pairwise distinct). -/
structure bill where
  id : Int
  items : List (String × Float64)
  name : String
  deriving DecidableEq, Repr

/-- The function `newBill`. -/
def newBill (name : String) : bill :=
  { id := 1
    items := [("pie", Float64.ofDecimal 599 100), ("cake", Float64.ofDecimal 799 100)]
    name := name }

/-- An order in which one `range b.items` loop may visit the entries of the map: every
entry once, in any order. -/
def bill.RangeOrder (b : bill) (order : List (String × Float64)) : Prop :=
  order.Perm b.items

instance (b : bill) (order : List (String × Float64)) : Decidable (b.RangeOrder order) := by
  unfold bill.RangeOrder; infer_instance

/-- One iteration of the loop of `format` on the state `(fs, total)`. -/
def formatStep (st : String × Float64) (kv : String × Float64) : String × Float64 :=
  (st.1 ++ (fmtString true 15 (kv.1 ++ ":") ++ "  ...$" ++ fmtFloatV 5 kv.2 ++ " \n"),
   st.2.add kv.2)

/-- The method `format`; `order` is the sequence in which `range b.items` yields the
entries. -/
def bill.format (b : bill) (order : List (String × Float64)) : String :=
  let fs := "Bill breakdown: \n"
  let total := Float64.fin false 0
  let fs := fs ++ (fmtString true 15 "Name:" ++ "  " ++ fmtString false 5 b.name ++ "\n \n")
  let st := order.foldl formatStep (fs, total)
  st.1 ++ (fmtString true 15 "Total:" ++ "  ...$" ++ fmtFloatF 3 2 st.2)

/-- The method `updateName`. -/
def bill.updateName (b : bill) (name : String) : bill :=
  { b with name := name }

/-! ## samples/main.go -/

/-- Unicode white space as `unicode.IsSpace` defines it. -/
def isSpace (c : Char) : Bool :=
  c = '\t' || c = '\n' || c = Char.ofNat 0x0B || c = Char.ofNat 0x0C || c = '\r' || c = ' '
    || c = Char.ofNat 0x85 || c = Char.ofNat 0xA0 || c = Char.ofNat 0x1680
    || (decide (0x2000 ≤ c.toNat) && decide (c.toNat ≤ 0x200A))
    || c = Char.ofNat 0x2028 || c = Char.ofNat 0x2029 || c = Char.ofNat 0x202F
    || c = Char.ofNat 0x205F || c = Char.ofNat 0x3000

/-- The function `strings.TrimSpace`. -/
def TrimSpace (s : String) : String :=
  ⟨((s.data.dropWhile isSpace).reverse.dropWhile isSpace).reverse⟩

/-- The error `io.EOF`, the only one a finite standard input produces. -/
inductive Error where
  | EOF
  deriving DecidableEq, Repr

/-- A `bufio.Reader` over standard input: the text not read yet. -/
structure Reader where
  rest : List Char
  deriving DecidableEq, Repr

/-- Splits the text after the first `delim`, which stays with the first part; `none` when
there is no `delim`. -/
def splitAfter (delim : Char) : List Char → Option (List Char × List Char)
  | [] => none
  | c :: cs =>
    if c = delim then some ([c], cs)
    else match splitAfter delim cs with
      | some (line, rest) => some (c :: line, rest)
      | none => none

/-- The method `ReadString`: the text up to and including the first `delim`; at end of
input, the text read so far together with `io.EOF`. -/
def Reader.ReadString (r : Reader) (delim : Char) : String × Option Error × Reader :=
  match splitAfter delim r.rest with
  | some (line, rest) => (⟨line⟩, none, ⟨rest⟩)
  | none => (⟨r.rest⟩, some Error.EOF, ⟨[]⟩)

/-- What `getInput` returns and does: the two results, the reader afterwards and the
text printed on standard output. -/
structure InputResult where
  value : String
  err : Option Error
  reader : Reader
  printed : String
  deriving DecidableEq, Repr

/-- The function `getInput`. -/
def getInput (prompt : String) (r : Reader) : InputResult :=
  let (input, err, r) := r.ReadString '\n'
  { value := TrimSpace input, err := err, reader := r, printed := prompt }

/-- A call of `os.WriteFile`. -/
structure WriteCall where
  name : String
  data : String
  perm : Nat
  deriving DecidableEq, Repr

/-- What the environment decides during one run of the CLI: the order of each of the three
`range` loops (one per call of `format`) and the outcome of `os.WriteFile` (the message
of its error, if it fails). -/
structure Env where
  order1 : List (String × Float64)
  order2 : List (String × Float64)
  order3 : List (String × Float64)
  writeErr : Option String
  deriving DecidableEq, Repr

/-- What one run of the CLI does: the texts printed on standard output, one per print
call, the calls of `os.WriteFile`, and the exit status of the process. -/
structure Run where
  stdout : List String
  writes : List WriteCall
  exitCode : Nat
  deriving DecidableEq, Repr

/-- The function `fmt.Println` with two operands: a space between them, a newline after. -/
def Println2 (a b : String) : String :=
  a ++ " " ++ b ++ "\n"

/-- The function `main` of the CLI, run on the content `stdin` of standard input. -/
def main (stdin : String) (env : Env) : Run :=
  let myBill := newBill "old name"
  let out := [Println2 "bill:" (myBill.format env.order1)]
  let reader : Reader := ⟨stdin.data⟩
  let res := getInput "Enter new name: " reader
  let out := out ++ [res.printed]
  let name := res.value
  let myBill := myBill.updateName name
  let out := out ++ [Println2 "bill:" (myBill.format env.order2)]
  let data := myBill.format env.order3
  let call : WriteCall := { name := "bill.txt", data := data, perm := 0o644 }
  let out :=
    match env.writeErr with
    | some err => out ++ [Println2 "Error writing file:" err]
    | none => out
  { stdout := out, writes := [call], exitCode := 0 }

end samples

/-! ## encoding/json -/

/-- A lower-case hexadecimal digit. -/
def hexDigit (n : Nat) : Char :=
  match n % 16 with
  | 10 => 'a' | 11 => 'b' | 12 => 'c' | 13 => 'd' | 14 => 'e' | 15 => 'f'
  | m => digitChar m

/-- The escape `\u` followed by four hexadecimal digits. -/
def jsonHex4 (n : Nat) : List Char :=
  ['\\', 'u', hexDigit (n / 4096), hexDigit (n / 256), hexDigit (n / 16), hexDigit n]

/-- One code point inside a JSON string, as `encoding/json` writes it with HTML escaping on
(the default of `json.Encoder`). -/
def jsonChar (c : Char) : List Char :=
  if c = '"' then ['\\', '"']
  else if c = '\\' then ['\\', '\\']
  else if c = '\n' then ['\\', 'n']
  else if c = '\r' then ['\\', 'r']
  else if c = '\t' then ['\\', 't']
  else if c = Char.ofNat 8 then ['\\', 'b']
  else if c = Char.ofNat 12 then ['\\', 'f']
  else if c.toNat < 32 ∨ c = '<' ∨ c = '>' ∨ c = '&' ∨ c.toNat = 0x2028 ∨ c.toNat = 0x2029 then
    jsonHex4 c.toNat
  else [c]

/-- A Go string encoded as a JSON string. -/
def jsonString (s : String) : List Char :=
  '"' :: (s.data.flatMap jsonChar ++ ['"'])

/-- A Go `int` encoded as a JSON number. -/
def jsonInt (n : Int) : List Char :=
  if n < 0 then '-' :: natDigits n.natAbs else natDigits n.natAbs

/-- The exponent clean-up of the float encoder: `e-09` becomes `e-9`. -/
def jsonCleanExp (b : List Char) : List Char :=
  match b.reverse with
  | last :: '0' :: sign :: 'e' :: front =>
    if sign = '-' ∨ sign = '+' then (last :: sign :: 'e' :: front).reverse else b
  | _ => b

/-- A Go `float64` encoded as a JSON number: the shortest digits, in `%f` layout unless the
value is below `1e-6` or at least `1e21` in magnitude; `none` (an `UnsupportedValueError`)
for NaN and the infinities. -/
def jsonFloat : Float64 → Option (List Char)
  | .nan => none
  | .inf _ => none
  | .fin neg mag =>
    let small := match Float64.ofDecimal 1 1000000 with | .fin _ m => m | _ => 0
    let large := match Float64.ofDecimal 1000000000000000000000 1 with | .fin _ m => m | _ => 0
    if mag ≠ 0 ∧ (mag < small ∨ large ≤ mag) then
      some (jsonCleanExp (formatEShortest (.fin neg mag)))
    else some (formatFShortest (.fin neg mag))

/-! ## main.go -/

/-- The struct `Bill` declared in `getBills`, with its JSON field tags `id`, `amount`,
`payee`, `category`, `date`. -/
structure Bill where
  ID : Int
  Amount : Float64
  Payee : String
  Category : String
  Date : String
  deriving DecidableEq, Repr

/-- One `Bill` encoded as a JSON object: the fields in declaration order under their tags. -/
def jsonBill (b : Bill) : Option (List Char) :=
  match jsonFloat b.Amount with
  | none => none
  | some amount =>
    some ("\x7b\"id\":".data ++ jsonInt b.ID ++ ",\"amount\":".data ++ amount
      ++ ",\"payee\":".data ++ jsonString b.Payee
      ++ ",\"category\":".data ++ jsonString b.Category
      ++ ",\"date\":".data ++ jsonString b.Date ++ "\x7d".data)

/-- The elements of a JSON array, separated by commas. -/
def jsonElems : List Bill → Option (List Char)
  | [] => some []
  | [b] => jsonBill b
  | b :: bs =>
    match jsonBill b, jsonElems bs with
    | some x, some rest => some (x ++ ',' :: rest)
    | _, _ => none

/-- A non-nil slice of `Bill` encoded as a JSON array. -/
def jsonBills (bs : List Bill) : Option (List Char) :=
  match jsonElems bs with
  | some body => some ('[' :: (body ++ [']']))
  | none => none

/-- An HTTP request, as far as a handler can tell requests apart. -/
structure Request where
  method : String
  path : String
  header : List (String × String)
  body : String
  deriving DecidableEq, Repr

/-- The state of an `http.ResponseWriter`: the header map of the handler, the status and
headers sent to the client once the header is written, and the body written so far.
Headers the server adds on its own (date, length, a sniffed content type) are left out. -/
structure ResponseWriter where
  header : List (String × String)
  sent : Option (Nat × List (String × String))
  body : String
  deriving DecidableEq, Repr

/-- The writer a handler is called with: nothing set, nothing sent. -/
def ResponseWriter.fresh : ResponseWriter :=
  { header := [], sent := none, body := "" }

/-- The call `w.Header().Set(key, value)`. -/
def ResponseWriter.HeaderSet (w : ResponseWriter) (key value : String) : ResponseWriter :=
  { w with header := (key, value) :: w.header.filter (fun kv => kv.1 ≠ key) }

/-- The method `WriteHeader`: sends the status and the current headers, once. -/
def ResponseWriter.WriteHeader (w : ResponseWriter) (status : Nat) : ResponseWriter :=
  match w.sent with
  | some _ => w
  | none => { w with sent := some (status, w.header) }

/-- The method `Write`: sends the header with status 200 if it was not sent yet, then
appends to the body. -/
def ResponseWriter.Write (w : ResponseWriter) (data : String) : ResponseWriter :=
  let w := w.WriteHeader 200
  { w with body := w.body ++ data }

/-- The handler registered on `/`: `fmt.Fprintf(w, "Hello, World!")`, a format without
verbs, whose result is dropped. -/
def rootHandler (w : ResponseWriter) (_r : Request) : ResponseWriter :=
  w.Write "Hello, World!"

/-- The bills slice of `getBills`. -/
def getBills.bills : List Bill :=
  [ { ID := 1, Amount := Float64.ofDecimal 1000 10, Payee := "John Doe",
      Category := "Groceries", Date := "2022-01-01" },
    { ID := 2, Amount := Float64.ofDecimal 2000 10, Payee := "Jane Smith",
      Category := "Rent", Date := "2022-02-01" } ]

/-- The method `Encode` of a `json.Encoder` on `w`: the JSON text and a newline in one
write; on an encoding error nothing is written. -/
def Encode (w : ResponseWriter) (bs : List Bill) : ResponseWriter × Bool :=
  match jsonBills bs with
  | some text => (w.Write ⟨text ++ ['\n']⟩, true)
  | none => (w, false)

/-- The function `getBills`. -/
def getBills (w : ResponseWriter) (_r : Request) : ResponseWriter :=
  let w := w.HeaderSet "Content-Type" "application/json"
  (Encode w getBills.bills).1

/-- The handlers that `main` registers on the default multiplexer, by pattern. -/
def main.handlers : List (String × (ResponseWriter → Request → ResponseWriter)) :=
  [("/", rootHandler), ("/api/bills", getBills)]

/-- The address `main` listens on. -/
def main.addr : String := ":8080"

/-! ## Lines of a text -/

/-- The lines of a text: the pieces between newline characters. -/
def linesOfChars : List Char → List (List Char)
  | [] => [[]]
  | c :: cs =>
    if c = '\n' then [] :: linesOfChars cs
    else match linesOfChars cs with
      | [] => [[c]]
      | l :: ls => (c :: l) :: ls

/-- The lines of a string. -/
def linesOf (s : String) : List String :=
  (linesOfChars s.data).map String.mk

/-- No newline character in the list. -/
def Plain (l : List Char) : Prop :=
  ∀ c ∈ l, c ≠ '\n'

instance (l : List Char) : Decidable (Plain l) := by
  unfold Plain; infer_instance

/-- No newline character in the string. -/
def NoNewline (s : String) : Prop :=
  Plain s.data

instance (s : String) : Decidable (NoNewline s) := by
  unfold NoNewline; infer_instance

/-- The line that `format` renders for one entry of the map (without its newline). -/
def samples.itemLine (kv : String × Float64) : String :=
  fmtString true 15 (kv.1 ++ ":") ++ "  ...$" ++ fmtFloatV 5 kv.2 ++ " "

/-- The name line that `format` renders. -/
def samples.nameLine (name : String) : String :=
  fmtString true 15 "Name:" ++ "  " ++ fmtString false 5 name

/-- The sum that the loop of `format` accumulates, starting from `0.0`. -/
def samples.sumPrices (order : List (String × Float64)) : Float64 :=
  order.foldl (fun t kv => t.add kv.2) (Float64.fin false 0)

/-- The total line that `format` renders for a total. -/
def samples.totalLine (total : Float64) : String :=
  fmtString true 15 "Total:" ++ "  ...$" ++ fmtFloatF 3 2 total

/-- The visiting order pie, cake of the items of `newBill`. -/
def samples.pieCake : List (String × Float64) :=
  [("pie", Float64.ofDecimal 599 100), ("cake", Float64.ofDecimal 799 100)]

/-- The visiting order cake, pie of the items of `newBill`. -/
def samples.cakePie : List (String × Float64) :=
  [("cake", Float64.ofDecimal 799 100), ("pie", Float64.ofDecimal 599 100)]

/-- Whether the text `s` starts with the text `p`. -/
def startsWith (p s : String) : Bool :=
  p.data.isPrefixOf s.data

/-! ## Lemmas: characters produced by the number formatters -/

theorem Plain.nil : Plain [] := by
  intro c hc; simp at hc

theorem Plain.cons {c : Char} {l : List Char} (hc : c ≠ '\n') (h : Plain l) : Plain (c :: l) := by
  intro d hd
  simp only [List.mem_cons] at hd
  rcases hd with rfl | hd
  · exact hc
  · exact h d hd

theorem Plain.append {a b : List Char} (ha : Plain a) (hb : Plain b) : Plain (a ++ b) := by
  intro d hd
  simp only [List.mem_append] at hd
  rcases hd with hd | hd
  · exact ha d hd
  · exact hb d hd

theorem Plain.ite {p : Prop} [Decidable p] {a b : List Char} (ha : Plain a) (hb : Plain b) :
    Plain (if p then a else b) := by
  split
  · exact ha
  · exact hb

theorem Plain.mapRange (n : Nat) (f : Nat → Char) (h : ∀ i, f i ≠ '\n') :
    Plain ((List.range n).map f) := by
  intro c hc
  simp only [List.mem_map, List.mem_range] at hc
  rcases hc with ⟨i, _, rfl⟩
  exact h i

theorem Plain.replicate (n : Nat) : Plain (List.replicate n ' ') := by
  intro c hc
  simp only [List.mem_replicate] at hc
  rcases hc with ⟨_, rfl⟩
  decide

theorem digitChar_ne_newline (n : Nat) : digitChar n ≠ '\n' := by
  unfold digitChar
  split <;> decide

theorem natDigitsAux_plain (fuel n : Nat) (acc : List Char) (h : Plain acc) :
    Plain (natDigitsAux fuel n acc) := by
  induction fuel generalizing n acc with
  | zero => exact Plain.cons (digitChar_ne_newline n) h
  | succ fuel ih =>
    unfold natDigitsAux
    split
    · exact Plain.cons (digitChar_ne_newline n) h
    · exact ih (n / 10) _ (Plain.cons (digitChar_ne_newline n) h)

theorem natDigits_plain (n : Nat) : Plain (natDigits n) :=
  natDigitsAux_plain n n [] Plain.nil

theorem digitAt_plain (d : List Char) (j : Int) (h : Plain d) : digitAt d j ≠ '\n' := by
  unfold digitAt
  split
  · rw [List.getD_eq_getElem?_getD]
    cases hj : d[j.toNat]? with
    | none => simp
    | some c =>
      simp only [Option.getD_some]
      exact h c (List.getElem?_mem hj)
  · decide

theorem shortestSlice_plain (mag : Nat) : Plain (shortestSlice mag).d := by
  unfold shortestSlice
  split
  · exact Plain.nil
  · exact natDigits_plain _

theorem fmtE_plain (neg : Bool) (s : DecimalSlice) (prec : Nat) (h : Plain s.d) :
    Plain (fmtE neg s prec) := by
  unfold fmtE
  refine Plain.append (Plain.append (Plain.append (Plain.append ?_ ?_) ?_) ?_) ?_
  · exact Plain.ite (Plain.cons (by decide) Plain.nil) Plain.nil
  · exact Plain.cons (digitAt_plain _ _ h) Plain.nil
  · exact Plain.ite (Plain.cons (by decide) (Plain.mapRange _ _ (fun i => digitAt_plain _ _ h)))
      Plain.nil
  · refine Plain.cons (by decide) (Plain.cons ?_ Plain.nil)
    split <;> split <;> decide
  · exact Plain.ite (Plain.cons (by decide) (Plain.cons (digitChar_ne_newline _) Plain.nil))
      (natDigits_plain _)

theorem fmtF_plain (neg : Bool) (s : DecimalSlice) (prec : Nat) (h : Plain s.d) :
    Plain (fmtF neg s prec) := by
  unfold fmtF
  refine Plain.append (Plain.append ?_ ?_) ?_
  · exact Plain.ite (Plain.cons (by decide) Plain.nil) Plain.nil
  · exact Plain.ite (Plain.mapRange _ _ (fun i => digitAt_plain _ _ h))
      (Plain.cons (by decide) Plain.nil)
  · exact Plain.ite (Plain.cons (by decide) (Plain.mapRange _ _ (fun i => digitAt_plain _ _ h)))
      Plain.nil

theorem special_plain : Plain "NaN".data ∧ Plain "+Inf".data ∧ Plain "-Inf".data := by
  refine ⟨?_, ?_, ?_⟩ <;> unfold Plain <;> decide

theorem formatG_plain (x : Float64) : Plain (formatG x) := by
  cases x with
  | nan => exact special_plain.1
  | inf s => cases s
             · exact special_plain.2.1
             · exact special_plain.2.2
  | fin neg mag =>
    simp only [formatG]
    split
    · exact fmtE_plain _ _ _ (shortestSlice_plain mag)
    · exact fmtF_plain _ _ _ (shortestSlice_plain mag)

theorem formatFixed_plain (prec : Nat) (x : Float64) : Plain (formatFixed prec x) := by
  cases x with
  | nan => exact special_plain.1
  | inf s => cases s
             · exact special_plain.2.1
             · exact special_plain.2.2
  | fin neg mag =>
    simp only [formatFixed]
    refine Plain.append (Plain.append ?_ (natDigits_plain _)) ?_
    · exact Plain.ite (Plain.cons (by decide) Plain.nil) Plain.nil
    · exact Plain.ite (Plain.cons (by decide) (Plain.mapRange _ _ (fun i => digitChar_ne_newline _)))
        Plain.nil

theorem pad_plain (minus : Bool) (wid : Nat) (s : List Char) (h : Plain s) :
    Plain (pad minus wid s) := by
  unfold pad
  split
  · exact Plain.append h (Plain.replicate _)
  · exact Plain.append (Plain.replicate _) h

/-! ## Lemmas: lines of a rendering -/

theorem linesOfChars_ne_nil (l : List Char) : linesOfChars l ≠ [] := by
  cases l with
  | nil => simp [linesOfChars]
  | cons c cs =>
    unfold linesOfChars
    split
    · simp
    · split <;> simp

theorem linesOfChars_plain (a : List Char) (h : Plain a) : linesOfChars a = [a] := by
  induction a with
  | nil => rfl
  | cons c cs ih =>
    have hc : c ≠ '\n' := h c (List.mem_cons_self c cs)
    have hcs : Plain cs := fun d hd => h d (List.mem_cons_of_mem c hd)
    simp [linesOfChars, hc, ih hcs]

theorem linesOfChars_append (a b : List Char) (h : Plain a) :
    linesOfChars (a ++ '\n' :: b) = a :: linesOfChars b := by
  induction a with
  | nil => simp [linesOfChars]
  | cons c cs ih =>
    have hc : c ≠ '\n' := h c (List.mem_cons_self c cs)
    have hcs : Plain cs := fun d hd => h d (List.mem_cons_of_mem c hd)
    simp [linesOfChars, hc, ih hcs]

theorem linesOfChars_flatMap (segs : List (List Char)) (tl : List Char)
    (h : ∀ seg ∈ segs, Plain seg) :
    linesOfChars (segs.flatMap (fun seg => seg ++ ['\n']) ++ tl) = segs ++ linesOfChars tl := by
  induction segs with
  | nil => simp
  | cons seg rest ih =>
    have h1 : Plain seg := h seg (List.mem_cons_self seg rest)
    have h2 : ∀ x ∈ rest, Plain x := fun x hx => h x (List.mem_cons_of_mem seg hx)
    simp only [List.flatMap_cons, List.append_assoc, List.singleton_append, List.cons_append]
    rw [linesOfChars_append _ _ h1, List.nil_append, ih h2]

theorem foldl_formatStep (order : List (String × Float64)) (fs : String) (t : Float64) :
    ((order.foldl samples.formatStep (fs, t)).1.data
        = fs.data ++ order.flatMap (fun kv => (samples.itemLine kv).data ++ ['\n']))
    ∧ (order.foldl samples.formatStep (fs, t)).2 = order.foldl (fun t kv => t.add kv.2) t := by
  induction order generalizing fs t with
  | nil => simp
  | cons kv rest ih =>
    simp only [List.foldl_cons, List.flatMap_cons]
    obtain ⟨h1, h2⟩ := ih (samples.formatStep (fs, t) kv).1 (samples.formatStep (fs, t) kv).2
    refine ⟨?_, ?_⟩
    · rw [h1]
      simp [samples.formatStep, samples.itemLine, String.data_append]
    · rw [h2]
      simp [samples.formatStep]

theorem format_data (b : samples.bill) (order : List (String × Float64)) :
    (b.format order).data
      = "Bill breakdown: ".data ++ '\n' :: ((samples.nameLine b.name).data ++ '\n' :: (" ".data
          ++ '\n' :: (order.flatMap (fun kv => (samples.itemLine kv).data ++ ['\n'])
          ++ (samples.totalLine (samples.sumPrices order)).data))) := by
  have h := foldl_formatStep order
    ("Bill breakdown: \n" ++ (fmtString true 15 "Name:" ++ "  " ++ fmtString false 5 b.name ++ "\n \n"))
    (Float64.fin false 0)
  simp only [samples.bill.format, String.data_append, h.1, h.2]
  simp [samples.nameLine, samples.totalLine, samples.sumPrices, String.data_append]

theorem nameLine_plain (name : String) (h : NoNewline name) : Plain (samples.nameLine name).data := by
  simp only [samples.nameLine, String.data_append, fmtString]
  refine Plain.append (Plain.append (pad_plain _ _ _ ?_) ?_) (pad_plain _ _ _ h)
  · unfold Plain; decide
  · unfold Plain; decide

theorem itemLine_plain (kv : String × Float64) (h : NoNewline kv.1) :
    Plain (samples.itemLine kv).data := by
  simp only [samples.itemLine, String.data_append, fmtString, fmtFloatV]
  refine Plain.append (Plain.append (Plain.append (pad_plain _ _ _ ?_) ?_)
    (pad_plain _ _ _ (formatG_plain _))) ?_
  · exact Plain.append h (by unfold Plain; decide)
  · unfold Plain; decide
  · unfold Plain; decide

theorem totalLine_plain (t : Float64) : Plain (samples.totalLine t).data := by
  simp only [samples.totalLine, String.data_append, fmtString, fmtFloatF]
  refine Plain.append (Plain.append (pad_plain _ _ _ ?_) ?_) (pad_plain _ _ _ (formatFixed_plain _ _))
  · unfold Plain; decide
  · unfold Plain; decide

theorem linesOf_format (b : samples.bill) (order : List (String × Float64))
    (hname : NoNewline b.name) (hkeys : ∀ kv ∈ order, NoNewline kv.1) :
    linesOf (b.format order)
      = ["Bill breakdown: ", samples.nameLine b.name, " "] ++ order.map samples.itemLine
          ++ [samples.totalLine (samples.sumPrices order)] := by
  have hflat : order.flatMap (fun kv => (samples.itemLine kv).data ++ ['\n'])
      = (order.map (fun kv => (samples.itemLine kv).data)).flatMap (fun seg => seg ++ ['\n']) := by
    simp [List.flatMap_map]
  have hsegs : ∀ seg ∈ order.map (fun kv => (samples.itemLine kv).data), Plain seg := by
    intro seg hseg
    simp only [List.mem_map] at hseg
    rcases hseg with ⟨kv, hkv, rfl⟩
    exact itemLine_plain kv (hkeys kv hkv)
  unfold linesOf
  rw [format_data, linesOfChars_append _ _ (by unfold Plain; decide),
    linesOfChars_append _ _ (nameLine_plain _ hname),
    linesOfChars_append _ _ (by unfold Plain; decide), hflat,
    linesOfChars_flatMap _ _ hsegs, linesOfChars_plain _ (totalLine_plain _)]
  simp [List.map_map, Function.comp_def]

/-! ## Lemmas: iteration orders and runs of the CLI -/

theorem perm_pair {α : Type} {l : List α} {a b : α} (h : l.Perm [a, b]) :
    l = [a, b] ∨ l = [b, a] := by
  have hlen := h.length_eq
  match l, hlen with
  | [x, y], _ =>
    have hx : x ∈ [a, b] := h.subset (List.mem_cons_self x [y])
    simp only [List.mem_cons, List.mem_singleton, List.not_mem_nil, or_false] at hx
    rcases hx with rfl | rfl
    · have h2 := List.Perm.cons_inv h
      rw [List.perm_singleton] at h2
      left; rw [List.singleton_inj.mp h2]
    · have h2 := List.Perm.cons_inv (h.trans (List.Perm.swap x a []))
      rw [List.perm_singleton] at h2
      right; rw [List.singleton_inj.mp h2]

theorem rangeOrder_newBill {name : String} {order : List (String × Float64)}
    (h : (samples.newBill name).RangeOrder order) :
    order = [("pie", Float64.ofDecimal 599 100), ("cake", Float64.ofDecimal 799 100)]
      ∨ order = [("cake", Float64.ofDecimal 799 100), ("pie", Float64.ofDecimal 599 100)] :=
  perm_pair h

theorem main_eq (stdin : String) (env : samples.Env) :
    samples.main stdin env =
      { stdout :=
          [samples.Println2 "bill:" ((samples.newBill "old name").format env.order1),
           "Enter new name: ",
           samples.Println2 "bill:"
             (((samples.newBill "old name").updateName
               (samples.getInput "Enter new name: " ⟨stdin.data⟩).value).format env.order2)]
          ++ (match env.writeErr with
              | some err => [samples.Println2 "Error writing file:" err]
              | none => [])
        writes :=
          [{ name := "bill.txt"
             data := ((samples.newBill "old name").updateName
               (samples.getInput "Enter new name: " ⟨stdin.data⟩).value).format env.order3
             perm := 0o644 }]
        exitCode := 0 } := by
  cases env with
  | mk o1 o2 o3 w => cases w <;> rfl

theorem getInput_carol : (samples.getInput "Enter new name: " ⟨"Carol\n".data⟩).value = "Carol" := by
  decide

theorem startsWith_error_bill (x : String) :
    startsWith "Error writing file:" (samples.Println2 "bill:" x) = false := by
  simp [startsWith, samples.Println2, String.data_append, List.isPrefixOf]

theorem startsWith_error_error (x : String) :
    startsWith "Error writing file:" (samples.Println2 "Error writing file:" x) = true := by
  simp [startsWith, samples.Println2, String.data_append, List.isPrefixOf]

/-! ## Lemmas: reading and trimming a line -/

theorem splitAfter_some {d : Char} {l line rest : List Char}
    (h : samples.splitAfter d l = some (line, rest)) :
    l = line ++ rest ∧ ∃ pre, line = pre ++ [d] ∧ d ∉ pre := by
  induction l generalizing line rest with
  | nil => simp [samples.splitAfter] at h
  | cons c cs ih =>
    unfold samples.splitAfter at h
    split at h
    · rename_i hc
      simp only [Option.some.injEq, Prod.mk.injEq] at h
      obtain ⟨rfl, rfl⟩ := h
      exact ⟨rfl, [], by simp [hc], by simp⟩
    · rename_i hc
      split at h
      · rename_i line1 rest1 hrec
        simp only [Option.some.injEq, Prod.mk.injEq] at h
        obtain ⟨rfl, rfl⟩ := h
        obtain ⟨h1, pre, h2, h3⟩ := ih hrec
        refine ⟨by rw [h1]; rfl, c :: pre, by rw [h2]; rfl, ?_⟩
        intro hmem
        simp only [List.mem_cons] at hmem
        rcases hmem with rfl | hmem
        · exact hc rfl
        · exact h3 hmem
      · simp at h

theorem splitAfter_none {d : Char} {l : List Char} (h : samples.splitAfter d l = none) :
    d ∉ l := by
  induction l with
  | nil => simp
  | cons c cs ih =>
    unfold samples.splitAfter at h
    split at h
    · simp at h
    · rename_i hc
      split at h
      · simp at h
      · rename_i hrec
        intro hmem
        simp only [List.mem_cons] at hmem
        rcases hmem with rfl | hmem
        · exact hc rfl
        · exact ih hrec hmem

theorem trim_decompose (l : List Char) :
    l = l.takeWhile samples.isSpace
          ++ ((l.dropWhile samples.isSpace).reverse.dropWhile samples.isSpace).reverse
          ++ ((l.dropWhile samples.isSpace).reverse.takeWhile samples.isSpace).reverse := by
  have h1 : l = l.takeWhile samples.isSpace ++ l.dropWhile samples.isSpace :=
    (List.takeWhile_append_dropWhile samples.isSpace l).symm
  have h2 : (l.dropWhile samples.isSpace).reverse
      = (l.dropWhile samples.isSpace).reverse.takeWhile samples.isSpace
          ++ (l.dropWhile samples.isSpace).reverse.dropWhile samples.isSpace :=
    (List.takeWhile_append_dropWhile samples.isSpace _).symm
  have h3 : l.dropWhile samples.isSpace
      = ((l.dropWhile samples.isSpace).reverse.dropWhile samples.isSpace).reverse
          ++ ((l.dropWhile samples.isSpace).reverse.takeWhile samples.isSpace).reverse := by
    rw [← List.reverse_append, ← h2, List.reverse_reverse]
  rw [List.append_assoc, ← h3]
  exact h1

theorem trim_head_not_space (l : List Char) (c : Char)
    (h : (((l.dropWhile samples.isSpace).reverse.dropWhile samples.isSpace).reverse).head? = some c) :
    samples.isSpace c = false := by
  have h3 : l.dropWhile samples.isSpace
      = ((l.dropWhile samples.isSpace).reverse.dropWhile samples.isSpace).reverse
          ++ ((l.dropWhile samples.isSpace).reverse.takeWhile samples.isSpace).reverse := by
    rw [← List.reverse_append, List.takeWhile_append_dropWhile, List.reverse_reverse]
  have h4 : (l.dropWhile samples.isSpace).head? = some c := by
    rw [h3, List.head?_append, h]
    rfl
  have h5 := List.head?_dropWhile_not samples.isSpace l
  rw [h4] at h5
  exact h5

theorem trim_last_not_space (l : List Char) (c : Char)
    (h : (((l.dropWhile samples.isSpace).reverse.dropWhile samples.isSpace).reverse).getLast? = some c) :
    samples.isSpace c = false := by
  rw [List.getLast?_reverse] at h
  have h5 := List.head?_dropWhile_not samples.isSpace (l.dropWhile samples.isSpace).reverse
  rw [h] at h5
  exact h5

theorem trim_subset (l : List Char) :
    ((l.dropWhile samples.isSpace).reverse.dropWhile samples.isSpace).reverse ⊆ l := by
  intro c hc
  rw [List.mem_reverse] at hc
  have h1 := (List.dropWhile_suffix samples.isSpace).subset hc
  rw [List.mem_reverse] at h1
  exact (List.dropWhile_suffix samples.isSpace).subset h1

theorem trim_line_plain (pre : List Char) (h : '\n' ∉ pre) :
    Plain (((pre ++ ['\n']).dropWhile samples.isSpace).reverse.dropWhile samples.isSpace).reverse := by
  intro c hc hcn
  subst hcn
  rw [List.dropWhile_append] at hc
  split at hc
  · have : List.dropWhile samples.isSpace ['\n'] = [] := by decide
    rw [this] at hc
    simp at hc
  · rw [List.reverse_append, List.reverse_singleton, List.singleton_append,
      List.dropWhile_cons_of_pos (by decide), List.mem_reverse] at hc
    have h1 := (List.dropWhile_suffix samples.isSpace).subset hc
    rw [List.mem_reverse] at h1
    exact h ((List.dropWhile_suffix samples.isSpace).subset h1)

/-! ## Lemmas: sums of one or two prices -/

theorem units_zero (s : Bool) : Float64.units s 0 = 0 := by
  cases s <;> simp [Float64.units]

theorem units_eq_zero {s : Bool} {m : Nat} (h : Float64.units s m = 0) : m = 0 := by
  cases s <;> simp [Float64.units] at h <;> exact h

theorem units_neg_iff (s : Bool) (m : Nat) (hm : m ≠ 0) :
    decide (Float64.units s m < 0) = s := by
  cases s
  · simp [Float64.units]
  · simp [Float64.units]; omega

theorem units_natAbs (s : Bool) (m : Nat) : (Float64.units s m).natAbs = m := by
  cases s <;> simp [Float64.units]

theorem divRoundEven_of_dvd (n d : Nat) (hd : 0 < d) (h : n % d = 0) :
    Float64.divRoundEven n d = n / d := by
  simp [Float64.divRoundEven, h, hd]

theorem roundTo_eq (neg : Bool) (n d : Nat) :
    Float64.roundTo neg n d
      = if Float64.divRoundEven n (d * 2 ^ (log2 (n / d) - 52)) * 2 ^ (log2 (n / d) - 52)
            < 2 ^ 2098
        then Float64.fin neg
          (Float64.divRoundEven n (d * 2 ^ (log2 (n / d) - 52)) * 2 ^ (log2 (n / d) - 52))
        else Float64.inf neg :=
  rfl

theorem wellFormed_fin {neg : Bool} {mag : Nat} (h : (Float64.fin neg mag).WellFormed) :
    mag < 2 ^ 2098 ∧ mag % 2 ^ (log2 mag - 52) = 0 :=
  h

theorem roundTo_self (neg : Bool) (mag : Nat) (h : (Float64.fin neg mag).WellFormed) :
    Float64.roundTo neg mag 1 = Float64.fin neg mag := by
  obtain ⟨h1, h2⟩ := wellFormed_fin h
  have hpos : 0 < 2 ^ (log2 mag - 52) := Nat.two_pow_pos _
  have hq : Float64.divRoundEven mag (1 * 2 ^ (log2 (mag / 1) - 52)) * 2 ^ (log2 (mag / 1) - 52)
      = mag := by
    rw [Nat.div_one, Nat.one_mul, divRoundEven_of_dvd _ _ hpos h2]
    exact Nat.div_mul_cancel (Nat.dvd_of_mod_eq_zero h2)
  rw [roundTo_eq, hq, if_pos h1]

theorem add_fin_fin (s t : Bool) (m n : Nat) :
    Float64.add (Float64.fin s m) (Float64.fin t n)
      = if Float64.units s m + Float64.units t n = 0 then Float64.fin (s && t) 0
        else Float64.roundTo (decide (Float64.units s m + Float64.units t n < 0))
          (Float64.units s m + Float64.units t n).natAbs 1 :=
  rfl

theorem add_zero_fin (s0 t : Bool) (n : Nat) (h : (Float64.fin t n).WellFormed) :
    Float64.add (Float64.fin s0 0) (Float64.fin t n)
      = if n = 0 then Float64.fin (s0 && t) 0 else Float64.fin t n := by
  rw [add_fin_fin, units_zero, Int.zero_add]
  by_cases hn : n = 0
  · subst hn
    rw [units_zero, if_pos rfl, if_pos rfl]
  · have hz : Float64.units t n ≠ 0 := fun hz => hn (units_eq_zero hz)
    rw [if_neg hz, if_neg hn, units_neg_iff t n hn, units_natAbs]
    exact roundTo_self t n h

theorem add_comm_fin (s t : Bool) (m n : Nat) :
    Float64.add (Float64.fin s m) (Float64.fin t n)
      = Float64.add (Float64.fin t n) (Float64.fin s m) := by
  rw [add_fin_fin, add_fin_fin, Int.add_comm (Float64.units s m), Bool.and_comm s t]

theorem wellFormed_zero (s : Bool) : (Float64.fin s 0).WellFormed :=
  ⟨Nat.two_pow_pos _, Nat.zero_mod _⟩

theorem add_nan_left (x : Float64) : Float64.add Float64.nan x = Float64.nan := by
  cases x <;> rfl

theorem add_nan_right (x : Float64) : Float64.add x Float64.nan = Float64.nan := by
  cases x <;> rfl

theorem add_zero_norm (s : Bool) (m : Nat) (h : (Float64.fin s m).WellFormed) (hm : m ≠ 0) :
    Float64.add (Float64.fin false 0) (Float64.fin s m) = Float64.fin s m := by
  rw [add_zero_fin false s m h, if_neg hm]

theorem add_zero_zero (s0 s : Bool) :
    Float64.add (Float64.fin s0 0) (Float64.fin s 0) = Float64.fin (s0 && s) 0 := by
  rw [add_zero_fin s0 s 0 (wellFormed_zero s), if_pos rfl]

theorem add_pair_comm (a b : Float64) (ha : a.WellFormed) (hb : b.WellFormed) :
    Float64.add (Float64.add (Float64.fin false 0) a) b
      = Float64.add (Float64.add (Float64.fin false 0) b) a := by
  cases a with
  | nan => simp only [add_nan_left, add_nan_right]
  | inf s =>
    cases b with
    | nan => simp only [add_nan_left, add_nan_right]
    | inf t =>
      show (if s = t then Float64.inf s else Float64.nan)
        = (if t = s then Float64.inf t else Float64.nan)
      by_cases hst : s = t
      · subst hst; rfl
      · have hts : ¬ t = s := fun h => hst h.symm
        rw [if_neg hst, if_neg hts]
    | fin t n =>
      rw [add_zero_fin false t n hb]
      split <;> rfl
  | fin s m =>
    cases b with
    | nan => simp only [add_nan_left, add_nan_right]
    | inf t =>
      rw [add_zero_fin false s m ha]
      split <;> rfl
    | fin t n =>
      by_cases hm : m = 0
      · subst hm
        by_cases hn : n = 0
        · subst hn
          simp only [add_zero_zero, Bool.false_and]
        · rw [add_zero_zero, add_zero_norm t n hb hn, add_comm_fin t s n 0,
            add_zero_fin _ t n hb, add_zero_fin _ t n hb, if_neg hn, if_neg hn]
      · by_cases hn : n = 0
        · subst hn
          rw [add_zero_zero, add_zero_norm s m ha hm, add_comm_fin s t m 0,
            add_zero_fin _ s m ha, add_zero_fin _ s m ha, if_neg hm, if_neg hm]
        · rw [add_zero_norm s m ha hm, add_zero_norm t n hb hn]
          exact add_comm_fin s t m n

theorem sumPrices_perm_of_le_two (o1 o2 : List (String × Float64)) (hp : o1.Perm o2)
    (hlen : o1.length ≤ 2) (hwf : ∀ kv ∈ o1, kv.2.WellFormed) :
    samples.sumPrices o1 = samples.sumPrices o2 := by
  match o1, hlen, hwf, hp with
  | [], _, _, hp => rw [List.nil_perm.mp hp]
  | [x], _, _, hp => rw [List.singleton_perm.mp hp]
  | [x, y], _, hwf, hp =>
    rcases perm_pair hp.symm with e | e
    · rw [e]
    · rw [e]
      exact add_pair_comm x.2 y.2 (hwf x (by simp)) (hwf y (by simp))

theorem natDigitsAux_ne_nil (fuel n : Nat) (acc : List Char) : natDigitsAux fuel n acc ≠ [] := by
  induction fuel generalizing n acc with
  | zero => simp [natDigitsAux]
  | succ fuel ih =>
    unfold natDigitsAux
    split
    · simp
    · exact ih _ _

theorem pad_of_le (minus : Bool) (wid : Nat) (s : List Char) (h : wid ≤ s.length) :
    pad minus wid s = s := by
  unfold pad
  rw [Nat.sub_eq_zero_of_le h]
  cases minus <;> simp

theorem totalLine_fin (neg : Bool) (mag : Nat) :
    (samples.totalLine (Float64.fin neg mag)).data
      = "Total:           ...$".data ++ (if neg then ['-'] else [])
          ++ natDigits (Float64.divRoundEven (mag * 100) (2 ^ 1074) / 100)
          ++ ['.', digitChar (Float64.divRoundEven (mag * 100) (2 ^ 1074) / 10),
              digitChar (Float64.divRoundEven (mag * 100) (2 ^ 1074))] := by
  have hfix : formatFixed 2 (Float64.fin neg mag)
      = (if neg then ['-'] else [])
          ++ natDigits (Float64.divRoundEven (mag * 100) (2 ^ 1074) / 100)
          ++ ['.', digitChar (Float64.divRoundEven (mag * 100) (2 ^ 1074) / 10),
              digitChar (Float64.divRoundEven (mag * 100) (2 ^ 1074))] := by
    simp [formatFixed, List.range_succ]
  have hlen : 3 ≤ (formatFixed 2 (Float64.fin neg mag)).length := by
    rw [hfix]
    simp only [List.length_append, List.length_cons, List.length_nil]
    omega
  have hpad : pad true 15 "Total:".data = "Total:         ".data := by decide
  have hp : pad false 3 (formatFixed 2 (Float64.fin neg mag))
      = formatFixed 2 (Float64.fin neg mag) := pad_of_le _ _ _ hlen
  simp only [samples.totalLine, fmtString, fmtFloatF, String.data_append, hp, hpad]
  rw [hfix]
  simp only [List.append_assoc]
  rfl

theorem format_no_trailing_newline (b : samples.bill) (order : List (String × Float64)) :
    (b.format order).data.getLast? ≠ some '\n' := by
  have hne : (samples.totalLine (samples.sumPrices order)).data ≠ [] := by
    simp [samples.totalLine, fmtString, pad, String.data_append]
  have hform : (b.format order).data
      = ("Bill breakdown: ".data ++ '\n' :: ((samples.nameLine b.name).data ++ '\n' :: (" ".data
          ++ '\n' :: order.flatMap (fun kv => (samples.itemLine kv).data ++ ['\n']))))
        ++ (samples.totalLine (samples.sumPrices order)).data := by
    rw [format_data]
    simp
  rw [hform, List.getLast?_append_of_ne_nil _ hne]
  intro hlast
  exact totalLine_plain _ _ (List.mem_of_getLast?_eq_some hlast) rfl

/-! ## The claims -/

/-- C1: for the bill `newBill("Alice")` and every order in which `range` may visit its two
items, the last line of `format()` is the total line `Total:` (padded to 15) followed by
`  ...$13.98`: the sum 5.99 + 7.99 with two decimals, whatever the order. -/
theorem newBill_alice_total_line (order : List (String × Float64))
    (h : (samples.newBill "Alice").RangeOrder order) :
    (linesOf ((samples.newBill "Alice").format order)).getLast?
        = some "Total:           ...$13.98"
      ∧ samples.totalLine (samples.sumPrices order) = "Total:           ...$13.98"
      ∧ samples.sumPrices order = Float64.add (Float64.ofDecimal 599 100) (Float64.ofDecimal 799 100) := by
  rcases rangeOrder_newBill h with rfl | rfl <;> decide!

theorem newBill_alice_total_line_witness :
    (samples.newBill "Alice").RangeOrder
        [("cake", Float64.ofDecimal 799 100), ("pie", Float64.ofDecimal 599 100)]
      ∧ (linesOf ((samples.newBill "Alice").format
          [("cake", Float64.ofDecimal 799 100), ("pie", Float64.ofDecimal 599 100)])).getLast?
        = some "Total:           ...$13.98" :=
  ⟨by decide!, (newBill_alice_total_line _ (by decide!)).1⟩

/-- C2, as stated, fails: for `b = newBill("Alice")`, when the call of `format` before
`b.updateName("Bob")` visits pie before cake and the call after it visits cake before pie,
the two renderings differ in the name line and also in the fourth and fifth lines, where the
two item lines have changed places. -/
theorem rename_alice_bob_item_lines_swap :
    (samples.newBill "Alice").RangeOrder samples.pieCake
      ∧ ((samples.newBill "Alice").updateName "Bob").RangeOrder samples.cakePie
      ∧ linesOf ((samples.newBill "Alice").format samples.pieCake)
        = ["Bill breakdown: ", "Name:            Alice", " ", "pie:             ...$ 5.99 ",
            "cake:            ...$ 7.99 ", "Total:           ...$13.98"]
      ∧ linesOf (((samples.newBill "Alice").updateName "Bob").format samples.cakePie)
        = ["Bill breakdown: ", "Name:              Bob", " ", "cake:            ...$ 7.99 ",
            "pie:             ...$ 5.99 ", "Total:           ...$13.98"]
      ∧ (linesOf ((samples.newBill "Alice").format samples.pieCake))[3]?
        ≠ (linesOf (((samples.newBill "Alice").updateName "Bob").format samples.cakePie))[3]?
      ∧ (linesOf ((samples.newBill "Alice").format samples.pieCake))[4]?
        ≠ (linesOf (((samples.newBill "Alice").updateName "Bob").format samples.cakePie))[4]? := by
  decide!

/-- C2, amended: for `b = newBill("Alice")`, the rendering before and the rendering after
`b.updateName("Bob")` have the same header line, separator line and total line and the same
two item lines up to their order (each call lists them in the order its own loop visits the
items); the name line changes from `Alice` to `Bob`, and when both calls visit the items in
the same order every line but the name line is the same. -/
theorem rename_alice_bob_changes_name_line_only (o1 o2 : List (String × Float64))
    (h1 : (samples.newBill "Alice").RangeOrder o1)
    (h2 : ((samples.newBill "Alice").updateName "Bob").RangeOrder o2) :
    linesOf ((samples.newBill "Alice").format o1)
        = ["Bill breakdown: ", "Name:            Alice", " "] ++ o1.map samples.itemLine
            ++ ["Total:           ...$13.98"]
      ∧ linesOf (((samples.newBill "Alice").updateName "Bob").format o2)
        = ["Bill breakdown: ", "Name:              Bob", " "] ++ o2.map samples.itemLine
            ++ ["Total:           ...$13.98"]
      ∧ (o1.map samples.itemLine).Perm (o2.map samples.itemLine)
      ∧ (o2 = o1 → ∀ i, i ≠ 1 →
          (linesOf ((samples.newBill "Alice").format o1))[i]?
            = (linesOf (((samples.newBill "Alice").updateName "Bob").format o2))[i]?) := by
  have e1 : linesOf ((samples.newBill "Alice").format o1)
      = ["Bill breakdown: ", "Name:            Alice", " "] ++ o1.map samples.itemLine
          ++ ["Total:           ...$13.98"] := by
    rcases rangeOrder_newBill h1 with rfl | rfl <;> decide!
  have e2 : linesOf (((samples.newBill "Alice").updateName "Bob").format o2)
      = ["Bill breakdown: ", "Name:              Bob", " "] ++ o2.map samples.itemLine
          ++ ["Total:           ...$13.98"] := by
    rcases rangeOrder_newBill h2 with rfl | rfl <;> decide!
  refine ⟨e1, e2, List.Perm.map _ (List.Perm.trans h1 (List.Perm.symm h2)), ?_⟩
  intro ho i hi
  rw [e1, e2, ho]
  match i, hi with
  | 0, _ => rfl
  | n + 2, _ => rfl

theorem rename_alice_bob_changes_name_line_only_witness :
    linesOf ((samples.newBill "Alice").format (samples.newBill "Alice").items)
        = ["Bill breakdown: ", "Name:            Alice", " ", "pie:             ...$ 5.99 ",
            "cake:            ...$ 7.99 ", "Total:           ...$13.98"]
      ∧ linesOf (((samples.newBill "Alice").updateName "Bob").format
          (samples.newBill "Alice").items.reverse)
        = ["Bill breakdown: ", "Name:              Bob", " ", "cake:            ...$ 7.99 ",
            "pie:             ...$ 5.99 ", "Total:           ...$13.98"] :=
  ⟨(rename_alice_bob_changes_name_line_only (samples.newBill "Alice").items
      (samples.newBill "Alice").items.reverse (by decide!) (by decide!)).1.trans (by decide!),
   (rename_alice_bob_changes_name_line_only (samples.newBill "Alice").items
      (samples.newBill "Alice").items.reverse (by decide!) (by decide!)).2.1.trans (by decide!)⟩

/-- C3, as stated, fails: on standard input `Carol` and a newline, when the second call of
`format` visits pie before cake and the third call (the one whose result is written to
`bill.txt`) visits cake before pie, the bytes passed to the file write differ from the text
printed after `bill: ` by the second print. -/
theorem main_carol_file_differs_from_second_print :
    (samples.newBill "old name").RangeOrder samples.pieCake
      ∧ (samples.newBill "old name").RangeOrder samples.cakePie
      ∧ (samples.main "Carol\n" ⟨samples.pieCake, samples.pieCake, samples.cakePie, none⟩).stdout[2]?
        = some "bill: Bill breakdown: \nName:            Carol\n \npie:             ...$ 5.99 \ncake:            ...$ 7.99 \nTotal:           ...$13.98\n"
      ∧ (samples.main "Carol\n" ⟨samples.pieCake, samples.pieCake, samples.cakePie, none⟩).writes
        = [{ name := "bill.txt"
             data := "Bill breakdown: \nName:            Carol\n \ncake:            ...$ 7.99 \npie:             ...$ 5.99 \nTotal:           ...$13.98"
             perm := 420 }]
      ∧ ∀ c ∈ (samples.main "Carol\n"
            ⟨samples.pieCake, samples.pieCake, samples.cakePie, none⟩).writes,
          (samples.main "Carol\n" ⟨samples.pieCake, samples.pieCake, samples.cakePie, none⟩).stdout[2]?
            ≠ some ("bill: " ++ c.data ++ "\n") := by
  decide!

/-- C3, amended: on standard input `Carol` and a newline, the second print writes `bill: `,
the rendering of the bill named `Carol` and a newline, and the file write of `bill.txt`
receives a rendering of that same bill made by a further call of `format`: both have the
same header, name, separator and total lines and render the same two item lines, and they
are the same text when the two calls visit the items in the same order. -/
theorem main_carol_file_is_a_rendering (env : samples.Env)
    (h2 : ((samples.newBill "old name").updateName "Carol").RangeOrder env.order2)
    (h3 : ((samples.newBill "old name").updateName "Carol").RangeOrder env.order3) :
    (samples.main "Carol\n" env).stdout[2]?
        = some ("bill: " ++ ((samples.newBill "old name").updateName "Carol").format env.order2
            ++ "\n")
      ∧ (samples.main "Carol\n" env).writes
        = [{ name := "bill.txt"
             data := ((samples.newBill "old name").updateName "Carol").format env.order3
             perm := 0o644 }]
      ∧ linesOf (((samples.newBill "old name").updateName "Carol").format env.order2)
        = ["Bill breakdown: ", "Name:            Carol", " "] ++ env.order2.map samples.itemLine
            ++ ["Total:           ...$13.98"]
      ∧ linesOf (((samples.newBill "old name").updateName "Carol").format env.order3)
        = ["Bill breakdown: ", "Name:            Carol", " "] ++ env.order3.map samples.itemLine
            ++ ["Total:           ...$13.98"]
      ∧ (env.order2.map samples.itemLine).Perm (env.order3.map samples.itemLine)
      ∧ (env.order3 = env.order2 →
          ∀ c ∈ (samples.main "Carol\n" env).writes,
            (samples.main "Carol\n" env).stdout[2]? = some ("bill: " ++ c.data ++ "\n")) := by
  have hmain := main_eq "Carol\n" env
  rw [getInput_carol] at hmain
  have hout : (samples.main "Carol\n" env).stdout[2]?
      = some ("bill: " ++ ((samples.newBill "old name").updateName "Carol").format env.order2
          ++ "\n") := by
    rw [hmain]
    simp [samples.Println2, String.append_assoc]
  refine ⟨hout, ?_, ?_, ?_, List.Perm.map _ (List.Perm.trans h2 (List.Perm.symm h3)), ?_⟩
  · rw [hmain]
  · rcases rangeOrder_newBill h2 with e | e <;> rw [e] <;> decide!
  · rcases rangeOrder_newBill h3 with e | e <;> rw [e] <;> decide!
  · intro ho c hc
    rw [hout]
    rw [hmain] at hc
    simp only [List.mem_singleton] at hc
    rw [hc, ho]

theorem main_carol_file_is_a_rendering_witness :
    (samples.main "Carol\n"
        { order1 := (samples.newBill "old name").items
          order2 := (samples.newBill "old name").items
          order3 := (samples.newBill "old name").items.reverse
          writeErr := none }).writes
      = [{ name := "bill.txt"
           data := ((samples.newBill "old name").updateName "Carol").format
             (samples.newBill "old name").items.reverse
           perm := 0o644 }] :=
  (main_carol_file_is_a_rendering
    { order1 := (samples.newBill "old name").items
      order2 := (samples.newBill "old name").items
      order3 := (samples.newBill "old name").items.reverse
      writeErr := none } (by decide!) (by decide!)).2.1

/-- C4, as stated, fails: for the bill `newBill("Alice")` the two orders in which `range`
may visit its items give two different texts. -/
theorem format_depends_on_order :
    (samples.newBill "Alice").RangeOrder samples.pieCake
      ∧ (samples.newBill "Alice").RangeOrder samples.cakePie
      ∧ (samples.newBill "Alice").format samples.pieCake
        = "Bill breakdown: \nName:            Alice\n \npie:             ...$ 5.99 \ncake:            ...$ 7.99 \nTotal:           ...$13.98"
      ∧ (samples.newBill "Alice").format samples.cakePie
        = "Bill breakdown: \nName:            Alice\n \ncake:            ...$ 7.99 \npie:             ...$ 5.99 \nTotal:           ...$13.98"
      ∧ (samples.newBill "Alice").format samples.pieCake
        ≠ (samples.newBill "Alice").format samples.cakePie := by
  decide!

/-- C4, amended: for every bill whose name and item names hold no newline, the renderings
made under any two visiting orders of its items have the same header, name and separator
lines and the same item lines up to their order, and the same total line when the bill has
at most two items; two calls that visit the items in the same order return the same text. -/
theorem format_orders_agree_up_to_item_order (b : samples.bill)
    (o1 o2 : List (String × Float64)) (h1 : b.RangeOrder o1) (h2 : b.RangeOrder o2)
    (hname : NoNewline b.name) (hkeys : ∀ kv ∈ b.items, NoNewline kv.1) :
    linesOf (b.format o1)
        = ["Bill breakdown: ", samples.nameLine b.name, " "] ++ o1.map samples.itemLine
            ++ [samples.totalLine (samples.sumPrices o1)]
      ∧ linesOf (b.format o2)
        = ["Bill breakdown: ", samples.nameLine b.name, " "] ++ o2.map samples.itemLine
            ++ [samples.totalLine (samples.sumPrices o2)]
      ∧ (o1.map samples.itemLine).Perm (o2.map samples.itemLine)
      ∧ (b.items.length ≤ 2 → (∀ kv ∈ b.items, kv.2.WellFormed) →
          samples.totalLine (samples.sumPrices o1) = samples.totalLine (samples.sumPrices o2))
      ∧ (o1 = o2 → b.format o1 = b.format o2) := by
  have hk1 : ∀ kv ∈ o1, NoNewline kv.1 := fun kv hkv => hkeys kv (h1.subset hkv)
  have hk2 : ∀ kv ∈ o2, NoNewline kv.1 := fun kv hkv => hkeys kv (h2.subset hkv)
  refine ⟨linesOf_format b o1 hname hk1, linesOf_format b o2 hname hk2,
    List.Perm.map _ (List.Perm.trans h1 (List.Perm.symm h2)), ?_, ?_⟩
  · intro hlen hwf
    have hlen1 : o1.length ≤ 2 := by rw [h1.length_eq]; exact hlen
    have hwf1 : ∀ kv ∈ o1, kv.2.WellFormed := fun kv hkv => hwf kv (h1.subset hkv)
    rw [sumPrices_perm_of_le_two o1 o2 (List.Perm.trans h1 (List.Perm.symm h2)) hlen1 hwf1]
  · intro ho
    rw [ho]

theorem format_orders_agree_up_to_item_order_witness :
    (samples.pieCake.map samples.itemLine).Perm (samples.cakePie.map samples.itemLine)
      ∧ samples.totalLine (samples.sumPrices samples.pieCake)
        = samples.totalLine (samples.sumPrices samples.cakePie) :=
  ⟨(format_orders_agree_up_to_item_order (samples.newBill "Alice") samples.pieCake
      samples.cakePie (by decide!) (by decide!) (by decide!) (by decide!)).2.2.1,
   (format_orders_agree_up_to_item_order (samples.newBill "Alice") samples.pieCake
      samples.cakePie (by decide!) (by decide!) (by decide!) (by decide!)).2.2.2.1
      (by decide!) (by decide!)⟩

/-- C5: for every request, `getBills` leaves the writer with the header `Content-Type:
application/json` set and sent with status 200, and a body that is the JSON array of the
two bills (keys `id`, `amount`, `payee`, `category`, `date` in that order, amounts written
`100` and `200`), followed by the newline that `Encode` appends. -/
theorem getBills_response (r : Request) :
    getBills ResponseWriter.fresh r =
      { header := [("Content-Type", "application/json")]
        sent := some (200, [("Content-Type", "application/json")])
        body := "[\x7b\"id\":1,\"amount\":100,\"payee\":\"John Doe\",\"category\":\"Groceries\",\"date\":\"2022-01-01\"\x7d,\x7b\"id\":2,\"amount\":200,\"payee\":\"Jane Smith\",\"category\":\"Rent\",\"date\":\"2022-02-01\"\x7d]" ++ "\n" }
      ∧ List.lookup "/api/bills" main.handlers = some getBills := by
  refine ⟨?_, rfl⟩
  show (Encode (ResponseWriter.fresh.HeaderSet "Content-Type" "application/json")
    getBills.bills).1 = _
  decide!

/-- C6, as stated, fails: the rendering of `newBill("Alice")` has six lines, one more than
a header line, a name line, one line per item (two) and a total line; the third line is the
separator line made of one space. -/
theorem format_has_separator_line :
    linesOf ((samples.newBill "Alice").format (samples.newBill "Alice").items)
        = ["Bill breakdown: ", "Name:            Alice", " ", "pie:             ...$ 5.99 ",
            "cake:            ...$ 7.99 ", "Total:           ...$13.98"]
      ∧ (linesOf ((samples.newBill "Alice").format (samples.newBill "Alice").items)).length
        ≠ 2 + (samples.newBill "Alice").items.length + 1 := by
  decide!

/-- C6, amended: for every bill whose name and item names hold no newline, `format()`
returns the line `Bill breakdown: `, the name line (`Name:` padded to 15, two spaces, the
name padded on the left to 5), a separator line made of one space, then one line per item
in visiting order (the item name and `:` padded to 15, `  ...$`, the price in shortest
`%g` form padded on the left to 5, a space), then the total line without a newline after it
(`Total:` padded to 15, `  ...$`, and for a finite sum its value rounded to exactly two
decimals); the number of item lines is the number of items. -/
theorem format_shape (b : samples.bill) (order : List (String × Float64))
    (h : b.RangeOrder order) (hname : NoNewline b.name)
    (hkeys : ∀ kv ∈ b.items, NoNewline kv.1) :
    linesOf (b.format order)
        = ["Bill breakdown: ", samples.nameLine b.name, " "] ++ order.map samples.itemLine
            ++ [samples.totalLine (samples.sumPrices order)]
      ∧ (order.map samples.itemLine).length = b.items.length
      ∧ (b.format order).data.getLast? ≠ some '\n'
      ∧ (samples.nameLine b.name).data = "Name:            ".data ++ pad false 5 b.name.data
      ∧ (∀ kv : String × Float64, (samples.itemLine kv).data
          = pad true 15 (kv.1.data ++ [':']) ++ "  ...$".data ++ pad false 5 (formatG kv.2)
              ++ [' '])
      ∧ (∀ neg mag, samples.sumPrices order = Float64.fin neg mag →
          (samples.totalLine (samples.sumPrices order)).data
            = "Total:           ...$".data ++ (if neg then ['-'] else [])
                ++ natDigits (Float64.divRoundEven (mag * 100) (2 ^ 1074) / 100)
                ++ ['.', digitChar (Float64.divRoundEven (mag * 100) (2 ^ 1074) / 10),
                    digitChar (Float64.divRoundEven (mag * 100) (2 ^ 1074))]) := by
  have hk : ∀ kv ∈ order, NoNewline kv.1 := fun kv hkv => hkeys kv (h.subset hkv)
  refine ⟨linesOf_format b order hname hk, ?_, format_no_trailing_newline b order, ?_, ?_, ?_⟩
  · rw [List.length_map, h.length_eq]
  · have hpad : pad true 15 "Name:".data = "Name:          ".data := by decide
    simp only [samples.nameLine, fmtString, String.data_append, hpad]
    rfl
  · intro kv
    simp only [samples.itemLine, fmtString, fmtFloatV, String.data_append]
  · intro neg mag hsum
    rw [hsum]
    exact totalLine_fin neg mag

theorem format_shape_witness :
    linesOf ((samples.newBill "Alice").format samples.cakePie)
      = ["Bill breakdown: ", "Name:            Alice", " ", "cake:            ...$ 7.99 ",
          "pie:             ...$ 5.99 ", "Total:           ...$13.98"] :=
  (format_shape (samples.newBill "Alice") samples.cakePie (by decide!) (by decide!)
    (by decide!)).1.trans (by decide!)

/-- C7: for every bill and every string, `updateName` returns normally and leaves the bill
with the given name and the same identifier and items: the name is the only field that
changes. -/
theorem updateName_only_changes_name (b : samples.bill) (name : String) :
    (b.updateName name).name = name
      ∧ (b.updateName name).id = b.id
      ∧ (b.updateName name).items = b.items
      ∧ b.updateName name = { id := b.id, items := b.items, name := name }
      ∧ (b.updateName "").name = "" :=
  ⟨rfl, rfl, rfl, rfl, rfl⟩

/-- C9: for every input and every environment, the CLI ends with exit status 0, the same
whether the write of `bill.txt` succeeds or fails; a text starting with `Error writing
file:` is printed if and only if the write fails, and then it is the last text printed,
`Error writing file: `, the message of the error and a newline, after the same three texts
as in a run whose write succeeds. -/
theorem main_reports_write_failure (stdin : String) (env : samples.Env) :
    (samples.main stdin env).exitCode = 0
      ∧ (samples.main stdin env).exitCode
        = (samples.main stdin { env with writeErr := none }).exitCode
      ∧ ((samples.main stdin env).stdout.any (startsWith "Error writing file:") = true
          ↔ env.writeErr ≠ none)
      ∧ (∀ msg, env.writeErr = some msg →
          (samples.main stdin env).stdout
            = (samples.main stdin { env with writeErr := none }).stdout
                ++ ["Error writing file: " ++ msg ++ "\n"])
      ∧ (samples.main stdin { env with writeErr := none }).stdout.length = 3
      ∧ (samples.main stdin env).writes
        = (samples.main stdin { env with writeErr := none }).writes := by
  rw [main_eq stdin env, main_eq stdin { env with writeErr := none }]
  refine ⟨rfl, rfl, ?_, ?_, rfl, rfl⟩
  · cases hw : env.writeErr with
    | none =>
      have hprompt : startsWith "Error writing file:" "Enter new name: " = false := by decide
      simp [startsWith_error_bill, hprompt]
    | some msg => simp [startsWith_error_error]
  · intro msg hmsg
    simp [hmsg, samples.Println2, String.append_assoc]

/-- C10: for every request, the handler registered on `/` sends status 200 and writes the
body `Hello, World!`, thirteen bytes without a newline; it has no other outcome. -/
theorem rootHandler_response (r : Request) :
    List.lookup "/" main.handlers = some rootHandler
      ∧ rootHandler ResponseWriter.fresh r
        = { header := [], sent := some (200, []), body := "Hello, World!" }
      ∧ (rootHandler ResponseWriter.fresh r).body.utf8ByteSize = 13
      ∧ (rootHandler ResponseWriter.fresh r).body.data.getLast? = some '!' := by
  refine ⟨rfl, rfl, ?_, ?_⟩
  · show "Hello, World!".utf8ByteSize = 13
    decide
  · show "Hello, World!".data.getLast? = some '!'
    decide

/-- C8: for every content of standard input, `getInput` reads the text up to and including
the first newline (or up to the end of input, then with `io.EOF`) and returns it with the
white space at both ends removed: the result starts and ends with no white space and holds
no newline; `Carol` and a newline give `Carol`; and the value returned is the name of the
bill that `main` renders after `updateName`. -/
theorem getInput_returns_trimmed_line (prompt stdin : String) (env : samples.Env) :
    (∃ line ws1 ws2 : List Char,
        stdin.data = line ++ (samples.getInput prompt ⟨stdin.data⟩).reader.rest
        ∧ (((samples.getInput prompt ⟨stdin.data⟩).err = none
              ∧ ∃ pre, line = pre ++ ['\n'] ∧ '\n' ∉ pre)
            ∨ ((samples.getInput prompt ⟨stdin.data⟩).err = some samples.Error.EOF
              ∧ '\n' ∉ line ∧ (samples.getInput prompt ⟨stdin.data⟩).reader.rest = []))
        ∧ line = ws1 ++ (samples.getInput prompt ⟨stdin.data⟩).value.data ++ ws2
        ∧ (∀ c ∈ ws1, samples.isSpace c = true) ∧ (∀ c ∈ ws2, samples.isSpace c = true))
      ∧ (∀ c, (samples.getInput prompt ⟨stdin.data⟩).value.data.head? = some c → samples.isSpace c = false)
      ∧ (∀ c, (samples.getInput prompt ⟨stdin.data⟩).value.data.getLast? = some c →
          samples.isSpace c = false)
      ∧ NoNewline (samples.getInput prompt ⟨stdin.data⟩).value
      ∧ (samples.getInput prompt ⟨stdin.data⟩).printed = prompt
      ∧ (samples.getInput "Enter new name: " ⟨"Carol\n".data⟩).value = "Carol"
      ∧ (samples.main stdin env).stdout[2]?
        = some (samples.Println2 "bill:"
            (((samples.newBill "old name").updateName
              (samples.getInput "Enter new name: " ⟨stdin.data⟩).value).format env.order2))
      ∧ (samples.main stdin env).writes
        = [{ name := "bill.txt"
             data := ((samples.newBill "old name").updateName
               (samples.getInput "Enter new name: " ⟨stdin.data⟩).value).format env.order3
             perm := 0o644 }] := by
  refine ⟨?_, ?_, ?_, ?_, ?_, getInput_carol, ?_, ?_⟩
  · cases hs : samples.splitAfter '\n' stdin.data with
    | none =>
      have hno := splitAfter_none hs
      refine ⟨stdin.data, stdin.data.takeWhile samples.isSpace,
        ((stdin.data.dropWhile samples.isSpace).reverse.takeWhile samples.isSpace).reverse, ?_, ?_, ?_, ?_, ?_⟩
      · simp [samples.getInput, samples.Reader.ReadString, hs]
      · right
        simp [samples.getInput, samples.Reader.ReadString, hs, hno]
      · simp only [samples.getInput, samples.Reader.ReadString, hs, samples.TrimSpace]
        exact trim_decompose stdin.data
      · intro c hc
        exact List.mem_takeWhile_imp hc
      · intro c hc
        rw [List.mem_reverse] at hc
        exact List.mem_takeWhile_imp hc
    | some lr =>
      obtain ⟨line, rest⟩ := lr
      obtain ⟨h1, pre, h2, h3⟩ := splitAfter_some hs
      refine ⟨line, line.takeWhile samples.isSpace,
        ((line.dropWhile samples.isSpace).reverse.takeWhile samples.isSpace).reverse, ?_, ?_, ?_, ?_, ?_⟩
      · simp only [samples.getInput, samples.Reader.ReadString, hs]
        exact h1
      · left
        exact ⟨by simp [samples.getInput, samples.Reader.ReadString, hs], pre, h2, h3⟩
      · simp only [samples.getInput, samples.Reader.ReadString, hs, samples.TrimSpace]
        exact trim_decompose line
      · intro c hc
        exact List.mem_takeWhile_imp hc
      · intro c hc
        rw [List.mem_reverse] at hc
        exact List.mem_takeWhile_imp hc
  · intro c hc
    cases hs : samples.splitAfter '\n' stdin.data with
    | none =>
      simp only [samples.getInput, samples.Reader.ReadString, hs, samples.TrimSpace] at hc
      exact trim_head_not_space _ c hc
    | some lr =>
      simp only [samples.getInput, samples.Reader.ReadString, hs, samples.TrimSpace] at hc
      exact trim_head_not_space _ c hc
  · intro c hc
    cases hs : samples.splitAfter '\n' stdin.data with
    | none =>
      simp only [samples.getInput, samples.Reader.ReadString, hs, samples.TrimSpace] at hc
      exact trim_last_not_space _ c hc
    | some lr =>
      simp only [samples.getInput, samples.Reader.ReadString, hs, samples.TrimSpace] at hc
      exact trim_last_not_space _ c hc
  · cases hs : samples.splitAfter '\n' stdin.data with
    | none =>
      have hno := splitAfter_none hs
      simp only [NoNewline, samples.getInput, samples.Reader.ReadString, hs, samples.TrimSpace]
      intro c hc hcn
      subst hcn
      exact hno (trim_subset _ hc)
    | some lr =>
      obtain ⟨line, rest⟩ := lr
      obtain ⟨h1, pre, h2, h3⟩ := splitAfter_some hs
      simp only [NoNewline, samples.getInput, samples.Reader.ReadString, hs, samples.TrimSpace]
      rw [h2]
      exact trim_line_plain pre h3
  · cases hs : samples.splitAfter '\n' stdin.data <;>
      simp [samples.getInput, samples.Reader.ReadString, hs]
  · rw [main_eq]
    cases env.writeErr <;> rfl
  · rw [main_eq]

end GoLangTutorial
